import Mathlib

/-!
Shallow embedding of the crawl engine of `src/streamlit_app.py`
(dusterbloom/via2): the pagination-label reader `find_total_pages`, the
search-result walk `collect_search_results`, the detail-page link
extraction `get_procedura_links`, the document-table walk
`get_document_links`, and the identifier derivation `get_project_id`.

Text is modelled as `List Char`.  Markup (a BeautifulSoup document) is
modelled by the structure `Soup`, which records exactly the parts of the
DOM the crawler inspects: the optional `ul.pagination` container with its
optional `li.etichettaRicerca` label text, the list of anchors in document
order, and the optional `table.Documentazione` with its rows and cells.
The network is modelled by a fetch oracle `Str → Option Soup` (`none` is a
`requests.RequestException`: timeout or non-2xx status).  The two
`while True` pagination loops are embedded with explicit fuel; exhausting
the fuel yields `none`, which models divergence of the Python loop, while
every `break` yields `some`.  Each loop also returns the trace of URLs it
passed to the fetch oracle, in request order, so that retry/no-retry and
URL-construction behaviour is observable.
-/

set_option maxHeartbeats 1000000

namespace Via2

/-- Text, as a list of characters. -/
abbrev Str := List Char

/-- Convert a Lean string literal to the `Str` representation. -/
def str (s : String) : Str := s.data

/-- `\d` of the Python pattern, restricted to ASCII digits (the digits the
target site emits). -/
def isDigitC (c : Char) : Bool := 48 ≤ c.toNat && c.toNat ≤ 57

/-- `\s` of the Python pattern: space, tab, newline, carriage return,
vertical tab, form feed. -/
def isSpaceC (c : Char) : Bool :=
  c.toNat = 32 || c.toNat = 9 || c.toNat = 10 || c.toNat = 13 ||
  c.toNat = 11 || c.toNat = 12

/-- Longest boolean-predicate-satisfying prefix. -/
def takeWhileB (p : Char → Bool) : Str → Str
  | [] => []
  | c :: r => if p c then c :: takeWhileB p r else []

/-- Remainder after `takeWhileB`. -/
def dropWhileB (p : Char → Bool) : Str → Str
  | [] => []
  | c :: r => if p c then dropWhileB p r else c :: r

/-- Strip a literal prefix, failing when it is not there. -/
def stripLitB : Str → Str → Option Str
  | [], s => some s
  | _ :: _, [] => none
  | a :: as, b :: bs => if a = b then stripLitB as bs else none

/-- Match `\s+` at the head of the text: at least one whitespace
character, consumed greedily. -/
def stripWs1 (s : Str) : Option Str :=
  match s with
  | [] => none
  | c :: r => if isSpaceC c then some (dropWhileB isSpaceC r) else none

/-- Attempt the Python regular expression `Pagina\s+(\d+)\s+di\s+(\d+)` at
the current position, returning the two digit groups.  Because the
character classes of consecutive pieces are disjoint, the greedy
non-backtracking reading used here coincides with Python backtracking
semantics. -/
def matchPaginaAt (s : Str) : Option (Str × Str) :=
  match stripLitB (str "Pagina") s with
  | none => none
  | some s1 =>
    match stripWs1 s1 with
    | none => none
    | some s2 =>
      match takeWhileB isDigitC s2 with
      | [] => none
      | d1 =>
        match stripWs1 (dropWhileB isDigitC s2) with
        | none => none
        | some s4 =>
          match stripLitB (str "di") s4 with
          | none => none
          | some s5 =>
            match stripWs1 s5 with
            | none => none
            | some s6 =>
              match takeWhileB isDigitC s6 with
              | [] => none
              | d2 => some (d1, d2)

/-- `re.search` of the pattern: try every position left to right, return
the groups of the leftmost match. -/
def searchPagina : Str → Option (Str × Str)
  | [] => none
  | c :: r =>
    match matchPaginaAt (c :: r) with
    | some g => some g
    | none => searchPagina r

/-- Python `int` on a string of ASCII digits. -/
def natOfDigits (s : Str) : Nat :=
  s.foldl (fun n c => n * 10 + (c.toNat - 48)) 0

/-- The anchors the crawler looks at: `href` and `title` attributes, each
possibly absent. -/
structure Anchor where
  href : Option Str
  title : Option Str
deriving DecidableEq

/-- A `td` cell: its stripped text and its descendant anchors in document
order. -/
structure Td where
  text : Str
  anchors : List Anchor
deriving DecidableEq

/-- A `tr` row: its `td` cells in order. -/
structure Tr where
  tds : List Td
deriving DecidableEq

/-- The `table class="Documentazione"` element: its `tr` rows in order
(the first one is the header row). -/
structure Table where
  trs : List Tr
deriving DecidableEq

/-- The `ul class="pagination"` container: the text of its
`li class="etichettaRicerca"` child when that child exists. -/
structure PagUl where
  label : Option Str
deriving DecidableEq

/-- A parsed page, recording the parts of the DOM the crawler queries. -/
structure Soup where
  pagination : Option PagUl
  anchors : List Anchor
  docTable : Option Table
deriving DecidableEq

/-- An empty cell, used as the (unreachable) default of in-bounds indexing. -/
def emptyTd : Td := ⟨[], []⟩

/--
`find_total_pages` (src/streamlit_app.py:34-51): look up
`ul.pagination`, then `li.etichettaRicerca` inside it, then run
`re.search(r'Pagina\s+(\d+)\s+di\s+(\d+)', label.text)` and return
`int(group(2))`; each absence falls back to 1.
-/
def find_total_pages (soup : Soup) : Nat :=
  match soup.pagination with
  | none => 1
  | some ul =>
    match ul.label with
    | none => 1
    | some text =>
      match searchPagina text with
      | some g => natOfDigits g.2
      | none => 1

/-- Boolean prefix test on text. -/
def isPrefixB : Str → Str → Bool
  | [], _ => true
  | _ :: _, [] => false
  | a :: as, b :: bs => a = b && isPrefixB as bs

/-- Boolean substring test: `pat` occurs somewhere in the text (the CSS
`[href*='pat']` attribute test and the Python `in` operator). -/
def isInfixB (pat : Str) : Str → Bool
  | [] => isPrefixB pat []
  | c :: r => isPrefixB pat (c :: r) || isInfixB pat r

/-- `BASE_URL` (src/streamlit_app.py:14). -/
def baseURL : Str := str "https://va.mite.gov.it"

/-- Take the authority part of a URL remainder: up to the first `/`. -/
def authorityEnd : Str → Str
  | [] => []
  | c :: r => if c = '/' then [] else c :: authorityEnd r

/-- The `scheme://host` part of an absolute URL (empty for other shapes). -/
def schemeHost (base : Str) : Str :=
  if isPrefixB (str "https://") base then
    str "https://" ++ authorityEnd (base.drop 8)
  else if isPrefixB (str "http://") base then
    str "http://" ++ authorityEnd (base.drop 7)
  else []

/-- The directory part of a URL path: up to and including the last `/`,
or the root when the path has no `/`. -/
def dirOf (path : Str) : Str :=
  let d := (path.reverse.dropWhile (fun c => !(c = '/'))).reverse
  if d = [] then str "/" else d

/-- Models `urllib.parse.urljoin(base, url)` for the href shapes the
target site produces: an absolute `http(s)` URL is returned unchanged, a
root-relative path is attached to the base URL's `scheme://host`, and any
other relative path replaces the last segment of the base URL's path. -/
def urljoin (base url : Str) : Str :=
  if isPrefixB (str "http://") url || isPrefixB (str "https://") url then url
  else if isPrefixB (str "/") url then schemeHost base ++ url
  else
    let sh := schemeHost base
    sh ++ dirOf (base.drop sh.length) ++ url

/-- Upper-case hexadecimal digit of a value below 16. -/
def hexDigit (n : Nat) : Char :=
  if n < 10 then Char.ofNat (48 + n) else Char.ofNat (55 + n)

/-- Percent-encoding of one byte. -/
def pctByte (b : Nat) : Str := ['%', hexDigit (b / 16), hexDigit (b % 16)]

/-- UTF-8 bytes of a character. -/
def utf8Bytes (c : Char) : List Nat :=
  let n := c.toNat
  if n < 0x80 then [n]
  else if n < 0x800 then [0xC0 + n / 0x40, 0x80 + n % 0x40]
  else if n < 0x10000 then
    [0xE0 + n / 0x1000, 0x80 + n / 0x40 % 0x40, 0x80 + n % 0x40]
  else
    [0xF0 + n / 0x40000, 0x80 + n / 0x1000 % 0x40,
     0x80 + n / 0x40 % 0x40, 0x80 + n % 0x40]

/-- The characters `urllib.parse.quote_plus` never encodes: ASCII
letters, digits, `_`, `.`, `-`, `~`. -/
def isUnreserved (c : Char) : Bool :=
  (65 ≤ c.toNat && c.toNat ≤ 90) || (97 ≤ c.toNat && c.toNat ≤ 122) ||
  (48 ≤ c.toNat && c.toNat ≤ 57) ||
  c = '_' || c = '.' || c = '-' || c = '~'

/-- Models `urllib.parse.quote_plus`: keep unreserved characters, turn a
space into `+`, percent-encode the UTF-8 bytes of everything else. -/
def quotePlus (s : Str) : Str :=
  (s.map fun c =>
    if c = ' ' then [Char.ofNat 43]
    else if isUnreserved c then [c]
    else ((utf8Bytes c).map pctByte).flatten).flatten

/-- Decimal digits of a natural number (Python `str(page)`). -/
def natToStr (n : Nat) : Str := Nat.toDigits 10 n

/--
`build_search_url` (src/streamlit_app.py:24-31):
`f"{BASE_URL}/it-IT/Ricerca/ViaLibera?{urlencode(params)}"` with params
`Testo=keyword`, `t=search_type`, `pagina=page` in that order. -/
def build_search_url (keyword search_type : Str) (page : Nat) : Str :=
  baseURL ++ str "/it-IT/Ricerca/ViaLibera?" ++
    str "Testo=" ++ quotePlus keyword ++
    str "&t=" ++ quotePlus search_type ++
    str "&pagina=" ++ quotePlus (natToStr page)

/-- Attempt the Python regular expression
`(?:Info|Documentazione)/(\d+)` at the current position, returning the
digit group.  The two alternatives start with distinct letters, so
trying them in order without backtracking matches Python semantics. -/
def matchIdAt (s : Str) : Option Str :=
  match stripLitB (str "Info/") s with
  | some r =>
    match takeWhileB isDigitC r with
    | [] => none
    | d => some d
  | none =>
    match stripLitB (str "Documentazione/") s with
    | some r =>
      match takeWhileB isDigitC r with
      | [] => none
      | d => some d
    | none => none

/-- `re.search` of the ID pattern: leftmost match. -/
def searchId : Str → Option Str
  | [] => none
  | c :: r =>
    match matchIdAt (c :: r) with
    | some d => some d
    | none => searchId r

/--
`get_project_id` (src/streamlit_app.py:96-103): the first digit group
matched by `(?:Info|Documentazione)/(\d+)` in the detail URL, or the
sentinel `"UnknownProject"` when the pattern matches nowhere. -/
def get_project_id (detail_url : Str) : Str :=
  match searchId detail_url with
  | some d => d
  | none => str "UnknownProject"

/-- `matchIdAt` fails at every position strictly inside the prefix `p` of
`p ++ t` (decidable form of "the ID pattern first matches inside `t`"). -/
def noMatchWithin : Str → Str → Bool
  | [], _ => true
  | c :: p, t => (matchIdAt ((c :: p) ++ t)).isNone && noMatchWithin p t

/-- The link pattern chosen from the search type
(src/streamlit_app.py:73-76): `"o"` searches records (`Info`), anything
else searches documentation. -/
def searchPattern (search_type : Str) : Str :=
  if search_type = str "o" then str "/it-IT/Oggetti/Info/"
  else str "/it-IT/Oggetti/Documentazione/"

/-- The procedure-link pattern (src/streamlit_app.py:120). -/
def docPattern : Str := str "/it-IT/Oggetti/Documentazione/"

/-- `if full_url not in all_links: all_links.append(full_url)`
(src/streamlit_app.py:82-83 and 125-126). -/
def insertLink (acc : List Str) (l : Str) : List Str :=
  if l ∈ acc then acc else acc ++ [l]

/-- `soup.select(f"a[href*='{link_pattern}']")` resolved against
`BASE_URL` (src/streamlit_app.py:79-81): the anchors whose `href`
contains the pattern, in document order, each joined to an absolute
URL. -/
def pageAnchorLinks (soup : Soup) (pat : Str) : List Str :=
  (soup.anchors.filter fun a =>
      match a.href with
      | some h => isInfixB pat h
      | none => false).map
    fun a => urljoin baseURL (a.href.getD [])

/-- Fold one search-result page's links into the accumulator with the
membership test of src/streamlit_app.py:82-83. -/
def addPageLinks (acc : List Str) (soup : Soup) (pat : Str) : List Str :=
  (pageAnchorLinks soup pat).foldl insertLink acc

/--
The `while True` loop of `collect_search_results`
(src/streamlit_app.py:62-91), with explicit fuel.  Returns the collected
links and the trace of URLs handed to the fetch oracle; `none` models
divergence (the Python loop never reaching a `break`). -/
def csrAux (fetch : Str → Option Soup) (keyword search_type : Str) :
    Nat → Nat → List Str → Option (List Str × List Str)
  | 0, _, _ => none
  | fuel + 1, page, acc =>
    let url := build_search_url keyword search_type page
    match fetch url with
    | none => some (acc, [url])
    | some soup =>
      let acc2 := addPageLinks acc soup (searchPattern search_type)
      if find_total_pages soup ≤ page then some (acc2, [url])
      else
        match csrAux fetch keyword search_type fuel (page + 1) acc2 with
        | none => none
        | some (r, tr) => some (r, url :: tr)

/--
`collect_search_results` (src/streamlit_app.py:56-93): walk the
paginated search results from page 1, gathering detail-page URLs. -/
def collect_search_results (fetch : Str → Option Soup)
    (keyword search_type : Str) (fuel : Nat) :
    Option (List Str × List Str) :=
  csrAux fetch keyword search_type fuel 1 []

/--
`get_procedura_links` (src/streamlit_app.py:106-128): fetch the detail
page once; on failure return `[]`; otherwise keep every anchor with an
`href` containing the documentation pattern, resolved and deduplicated. -/
def get_procedura_links (fetch : Str → Option Soup) (detail_url : Str) :
    List Str :=
  match fetch detail_url with
  | none => []
  | some soup =>
    (soup.anchors.filter fun a => a.href.isSome).foldl
      (fun acc a =>
        let href := a.href.getD []
        if isInfixB docPattern href then
          insertLink acc (urljoin baseURL href)
        else acc)
      []

/-- `download_td.find("a", href=True, title="Scarica il documento")`
(src/streamlit_app.py:178): the first anchor of the cell carrying an
`href` and that exact `title`. -/
def findDownloadA (td : Td) : Option Anchor :=
  td.anchors.find? fun a =>
    a.href.isSome && a.title = some (str "Scarica il documento")

/-- One document-table row (src/streamlit_app.py:172-182): skip it when
it has fewer than 9 cells; otherwise take the display name from cell
index 1 and the download anchor from cell index 8, skipping the row when
that anchor is absent. -/
def rowEntries (row : Tr) : List (Str × Str) :=
  let cols := row.tds
  if cols.length < 9 then []
  else
    let nome_file := (cols.getD 1 emptyTd).text
    match findDownloadA (cols.getD 8 emptyTd) with
    | some a => [(urljoin baseURL (a.href.getD []), nome_file)]
    | none => []

/-- All entries of one page's document table
(src/streamlit_app.py:170-182): skip the header row, then append each
row's entries in row order. -/
def tableEntries (t : Table) : List (Str × Str) :=
  ((t.trs.drop 1).map rowEntries).flatten

/--
The `while True` loop of `get_document_links`
(src/streamlit_app.py:145-192), with explicit fuel.  Page 1 uses the
procedure URL itself; later pages append `pagina=n` with `&` when the
URL already has a query string and with `?` otherwise.  A fetch failure
or an absent `Documentazione` table breaks the loop.  Returns the
accumulated `(download URL, display name)` pairs and the trace of
fetched URLs; `none` models divergence. -/
def gdlAux (fetch : Str → Option Soup) (procedura_url : Str) :
    Nat → Nat → List (Str × Str) → Option (List (Str × Str) × List Str)
  | 0, _, _ => none
  | fuel + 1, page, acc =>
    let url :=
      if page = 1 then procedura_url
      else
        procedura_url ++
          (if '?' ∈ procedura_url then str "&" else str "?") ++
          str "pagina=" ++ natToStr page
    match fetch url with
    | none => some (acc, [url])
    | some soup =>
      match soup.docTable with
      | none => some (acc, [url])
      | some table =>
        let acc2 := acc ++ tableEntries table
        if find_total_pages soup ≤ page then some (acc2, [url])
        else
          match gdlAux fetch procedura_url fuel (page + 1) acc2 with
          | none => none
          | some (r, tr) => some (r, url :: tr)

/--
`get_document_links` (src/streamlit_app.py:133-195): walk the paginated
document table of one procedure page from page 1. -/
def get_document_links (fetch : Str → Option Soup) (procedura_url : Str)
    (fuel : Nat) : Option (List (Str × Str) × List Str) :=
  gdlAux fetch procedura_url fuel 1 []

/-! ## Helper lemmas on the text parsers -/

lemma stripLitB_append (l r : Str) : stripLitB l (l ++ r) = some r := by
  induction l with
  | nil => rfl
  | cons c cs ih => simp [stripLitB, ih]

lemma takeWhileB_cons_neg {p : Char → Bool} {c : Char} {r : Str}
    (h : p c = false) : takeWhileB p (c :: r) = [] := by
  simp [takeWhileB, h]

lemma dropWhileB_cons_neg {p : Char → Bool} {c : Char} {r : Str}
    (h : p c = false) : dropWhileB p (c :: r) = c :: r := by
  simp [dropWhileB, h]

lemma takeWhileB_all_append {p : Char → Bool} {a : Str} (r : Str)
    (h : ∀ c ∈ a, p c = true) :
    takeWhileB p (a ++ r) = a ++ takeWhileB p r := by
  induction a with
  | nil => rfl
  | cons c cs ih =>
    have hc := h c (by simp)
    have ih2 := ih fun x hx => h x (by simp [hx])
    simp [takeWhileB, hc, ih2]

lemma dropWhileB_all_append {p : Char → Bool} {a : Str} (r : Str)
    (h : ∀ c ∈ a, p c = true) :
    dropWhileB p (a ++ r) = dropWhileB p r := by
  induction a with
  | nil => rfl
  | cons c cs ih =>
    have hc := h c (by simp)
    have ih2 := ih fun x hx => h x (by simp [hx])
    simp [dropWhileB, hc, ih2]

lemma takeWhileB_all {p : Char → Bool} {a : Str}
    (h : ∀ c ∈ a, p c = true) : takeWhileB p a = a := by
  have := takeWhileB_all_append (p := p) (a := a) [] h
  simpa [takeWhileB] using this

lemma digit_not_space {c : Char} (h : isDigitC c = true) :
    isSpaceC c = false := by
  simp only [isDigitC, Bool.and_eq_true, decide_eq_true_eq] at h
  simp only [isSpaceC, Bool.or_eq_false_iff, decide_eq_false_iff_not]
  omega

/-- The leftmost-match search returns the head match when the pattern
matches at the current position. -/
lemma searchPagina_cons_of_match {c : Char} {r : Str} {g : Str × Str}
    (h : matchPaginaAt (c :: r) = some g) :
    searchPagina (c :: r) = some g := by
  simp [searchPagina, h]

/-- The pagination pattern, matched against the exact well-formed label
`Pagina a di b`, yields the two digit groups. -/
lemma matchPaginaAt_label (a b : Str) (ha : a ≠ []) (hb : b ≠ [])
    (hda : ∀ c ∈ a, isDigitC c = true) (hdb : ∀ c ∈ b, isDigitC c = true) :
    matchPaginaAt (str "Pagina " ++ (a ++ (str " di " ++ b))) =
      some (a, b) := by
  obtain ⟨ca, a2, rfl⟩ := List.exists_cons_of_ne_nil ha
  obtain ⟨cb, b2, rfl⟩ := List.exists_cons_of_ne_nil hb
  have hca := hda ca (by simp)
  have hcb := hdb cb (by simp)
  have h1 : stripLitB (str "Pagina")
      (str "Pagina " ++ ((ca :: a2) ++ (str " di " ++ (cb :: b2)))) =
      some (' ' :: ((ca :: a2) ++ (str " di " ++ (cb :: b2)))) := by
    rw [show str "Pagina " ++ ((ca :: a2) ++ (str " di " ++ (cb :: b2))) =
        str "Pagina" ++ (' ' :: ((ca :: a2) ++ (str " di " ++ (cb :: b2))))
      from rfl]
    exact stripLitB_append _ _
  have h2 : stripWs1 (' ' :: ((ca :: a2) ++ (str " di " ++ (cb :: b2)))) =
      some ((ca :: a2) ++ (str " di " ++ (cb :: b2))) := by
    simp only [stripWs1, show isSpaceC ' ' = true from rfl, if_true,
      List.cons_append]
    rw [dropWhileB_cons_neg (digit_not_space hca)]
  have h3 : takeWhileB isDigitC ((ca :: a2) ++ (str " di " ++ (cb :: b2))) =
      ca :: a2 := by
    rw [takeWhileB_all_append _ hda,
      show str " di " ++ (cb :: b2) = ' ' :: (str "di " ++ (cb :: b2))
        from rfl,
      takeWhileB_cons_neg (show isDigitC ' ' = false from rfl),
      List.append_nil]
  have h4 : dropWhileB isDigitC ((ca :: a2) ++ (str " di " ++ (cb :: b2))) =
      str " di " ++ (cb :: b2) := by
    rw [dropWhileB_all_append _ hda,
      show str " di " ++ (cb :: b2) = ' ' :: (str "di " ++ (cb :: b2))
        from rfl,
      dropWhileB_cons_neg (show isDigitC ' ' = false from rfl)]
  have h5 : stripWs1 (str " di " ++ (cb :: b2)) =
      some (str "di " ++ (cb :: b2)) := by
    rw [show str " di " ++ (cb :: b2) = ' ' :: (str "di " ++ (cb :: b2))
      from rfl]
    simp only [stripWs1, show isSpaceC ' ' = true from rfl, if_true]
    rw [show str "di " ++ (cb :: b2) = 'd' :: (str "i " ++ (cb :: b2))
      from rfl]
    rw [dropWhileB_cons_neg (show isSpaceC 'd' = false from rfl)]
  have h6 : stripLitB (str "di") (str "di " ++ (cb :: b2)) =
      some (' ' :: (cb :: b2)) := by
    rw [show str "di " ++ (cb :: b2) = str "di" ++ (' ' :: (cb :: b2))
      from rfl]
    exact stripLitB_append _ _
  have h7 : stripWs1 (' ' :: (cb :: b2)) = some (cb :: b2) := by
    simp only [stripWs1, show isSpaceC ' ' = true from rfl, if_true]
    rw [dropWhileB_cons_neg (digit_not_space hcb)]
  have h8 : takeWhileB isDigitC (cb :: b2) = cb :: b2 := takeWhileB_all hdb
  unfold matchPaginaAt
  rw [h1]
  simp only
  rw [h2]
  simp only
  rw [h3, h4]
  simp only
  rw [h5]
  simp only
  rw [h6]
  simp only
  rw [h7]
  simp only
  rw [h8]

/-!
## C5 — well-formed pagination labels

The claim: for every markup whose pagination container holds a
well-formed label `Pagina a di b` with integers `a` and `b`,
`find_total_pages` returns `b`, for every value of `a`.
-/

/-- C5.  When the pagination container's label reads exactly
`Pagina a di b` with nonempty digit strings `a` and `b`,
`find_total_pages` returns the value of `b`, whatever `a` is. -/
theorem find_total_pages_well_formed_label (soup : Soup) (ul : PagUl)
    (a b : Str) (hp : soup.pagination = some ul)
    (hl : ul.label = some (str "Pagina " ++ (a ++ (str " di " ++ b))))
    (ha : a ≠ []) (hb : b ≠ [])
    (hda : ∀ c ∈ a, isDigitC c = true) (hdb : ∀ c ∈ b, isDigitC c = true) :
    find_total_pages soup = natOfDigits b := by
  have hm := matchPaginaAt_label a b ha hb hda hdb
  have hs : searchPagina (str "Pagina " ++ (a ++ (str " di " ++ b))) =
      some (a, b) := by
    rw [show str "Pagina " ++ (a ++ (str " di " ++ b)) =
        'P' :: (str "agina " ++ (a ++ (str " di " ++ b))) from rfl]
    apply searchPagina_cons_of_match
    rw [show 'P' :: (str "agina " ++ (a ++ (str " di " ++ b))) =
        str "Pagina " ++ (a ++ (str " di " ++ b)) from rfl]
    exact hm
  unfold find_total_pages
  rw [hp]
  simp only
  rw [hl]
  simp only
  rw [hs]

/-- C5 witness: the label `Pagina 3 di 8` yields 8 total pages. -/
theorem find_total_pages_well_formed_label_witness :
    find_total_pages ⟨some ⟨some (str "Pagina 3 di 8")⟩, [], none⟩ = 8 :=
  find_total_pages_well_formed_label
    ⟨some ⟨some (str "Pagina 3 di 8")⟩, [], none⟩
    ⟨some (str "Pagina 3 di 8")⟩ (str "3") (str "8") rfl (by decide)
    (by decide) (by decide) (by decide) (by decide)

/-!
## C4 — fail-open default of `find_total_pages`

The claim states that `find_total_pages` always returns an integer ≥ 1.
It does not: a pagination label whose total group is the digit string
`0` (e.g. `Pagina 1 di 0`) makes the function return `int("0") = 0`.
The fallback part of the claim — absent container, absent label, or
unmatched pattern all yield 1, with no failure path — does hold.
-/

/-- C4 counterexample: on the label `Pagina 1 di 0`, `find_total_pages`
returns 0, so its result is not always ≥ 1. -/
theorem find_total_pages_zero_counterexample :
    find_total_pages ⟨some ⟨some (str "Pagina 1 di 0")⟩, [], none⟩ = 0 ∧
    ¬ 1 ≤ find_total_pages ⟨some ⟨some (str "Pagina 1 di 0")⟩, [], none⟩ := by
  constructor
  · decide
  · decide

/-- C4 amended.  `find_total_pages` is total (it is a Lean function with
no failure path) and fails open: an absent pagination container, an
absent label, or an unmatched pattern each yield 1; in every other case
it returns the numeric value of the matched total group, which is ≥ 0
but can be 0 when that group denotes zero. -/
theorem find_total_pages_fail_open :
    (∀ soup : Soup, soup.pagination = none → find_total_pages soup = 1) ∧
    (∀ (soup : Soup) (ul : PagUl), soup.pagination = some ul →
      ul.label = none → find_total_pages soup = 1) ∧
    (∀ (soup : Soup) (ul : PagUl) (t : Str), soup.pagination = some ul →
      ul.label = some t → searchPagina t = none →
      find_total_pages soup = 1) ∧
    (∀ soup : Soup, find_total_pages soup = 1 ∨
      ∃ (ul : PagUl) (t : Str) (g : Str × Str),
        soup.pagination = some ul ∧ ul.label = some t ∧
        searchPagina t = some g ∧
        find_total_pages soup = natOfDigits g.2) := by
  refine ⟨?_, ?_, ?_, ?_⟩
  · intro soup hp
    unfold find_total_pages
    rw [hp]
  · intro soup ul hp hl
    unfold find_total_pages
    rw [hp]
    simp only
    rw [hl]
  · intro soup ul t hp hl hs
    unfold find_total_pages
    rw [hp]
    simp only
    rw [hl]
    simp only
    rw [hs]
  · intro soup
    cases hp : soup.pagination with
    | none =>
      left
      unfold find_total_pages
      rw [hp]
    | some ul =>
      cases hl : ul.label with
      | none =>
        left
        unfold find_total_pages
        rw [hp]
        simp only
        rw [hl]
      | some t =>
        cases hs : searchPagina t with
        | none =>
          left
          unfold find_total_pages
          rw [hp]
          simp only
          rw [hl]
          simp only
          rw [hs]
        | some g =>
          right
          refine ⟨ul, t, g, rfl, hl, hs, ?_⟩
          unfold find_total_pages
          rw [hp]
          simp only
          rw [hl]
          simp only
          rw [hs]

/-- C4 witness: the three fail-open branches evaluated at concrete
markup. -/
theorem find_total_pages_fail_open_witness :
    find_total_pages ⟨none, [], none⟩ = 1 ∧
    find_total_pages ⟨some ⟨none⟩, [], none⟩ = 1 ∧
    find_total_pages ⟨some ⟨some (str "Pagina uno di otto")⟩, [], none⟩ = 1 :=
  ⟨find_total_pages_fail_open.1 ⟨none, [], none⟩ rfl,
   find_total_pages_fail_open.2.1 ⟨some ⟨none⟩, [], none⟩ ⟨none⟩ rfl rfl,
   find_total_pages_fail_open.2.2.1 ⟨some ⟨some (str "Pagina uno di otto")⟩, [], none⟩
     ⟨some (str "Pagina uno di otto")⟩ (str "Pagina uno di otto") rfl rfl
     (by decide)⟩

/-!
## C8 — identifier derivation

`get_project_id` scans the detail URL for the pattern
`(?:Info|Documentazione)/(\d+)` and returns the digit group of the
leftmost match, or the sentinel `"UnknownProject"` when there is none.
-/

/-- The ID pattern matched right at `Info/` followed by a digit string
running to the end of the URL yields that digit string. -/
lemma matchIdAt_info (d : Str) (hd : d ≠ [])
    (hdd : ∀ c ∈ d, isDigitC c = true) :
    matchIdAt (str "Info/" ++ d) = some d := by
  obtain ⟨c, d2, rfl⟩ := List.exists_cons_of_ne_nil hd
  unfold matchIdAt
  rw [stripLitB_append]
  simp only
  rw [takeWhileB_all hdd]

/-- The ID pattern matched right at `Documentazione/` followed by a
digit string running to the end of the URL yields that digit string. -/
lemma matchIdAt_doc (d : Str) (hd : d ≠ [])
    (hdd : ∀ c ∈ d, isDigitC c = true) :
    matchIdAt (str "Documentazione/" ++ d) = some d := by
  obtain ⟨c, d2, rfl⟩ := List.exists_cons_of_ne_nil hd
  unfold matchIdAt
  rw [show stripLitB (str "Info/") (str "Documentazione/" ++ (c :: d2)) =
      none from rfl]
  simp only
  rw [stripLitB_append]
  simp only
  rw [takeWhileB_all hdd]

/-- Leftmost search skips a prefix inside which the pattern matches
nowhere. -/
lemma searchId_skip (p t : Str) (h : noMatchWithin p t = true) :
    searchId (p ++ t) = searchId t := by
  induction p with
  | nil => rfl
  | cons c p2 ih =>
    simp only [noMatchWithin, Bool.and_eq_true, Option.isNone_iff_eq_none]
      at h
    have hm : matchIdAt ((c :: p2) ++ t) = none := h.1
    simp only [List.cons_append] at hm ⊢
    simp only [searchId, hm]
    exact ih h.2

/-- Leftmost search succeeds at the head position when the pattern
matches there. -/
lemma searchId_cons_of_match {c : Char} {r : Str} {d : Str}
    (h : matchIdAt (c :: r) = some d) : searchId (c :: r) = some d := by
  simp [searchId, h]

/-- C8.  `get_project_id` is total; on a URL whose trailing path segment
is a digit string directly preceded by `Info/` or `Documentazione/`
(the pattern matching nowhere earlier in the URL) it returns that
numeric segment, and on a URL in which the ID pattern matches nowhere it
returns the sentinel `"UnknownProject"`. -/
theorem get_project_id_spec :
    (∀ p d : Str, noMatchWithin p (str "Info/" ++ d) = true → d ≠ [] →
      (∀ c ∈ d, isDigitC c = true) →
      get_project_id (p ++ (str "Info/" ++ d)) = d) ∧
    (∀ p d : Str, noMatchWithin p (str "Documentazione/" ++ d) = true →
      d ≠ [] → (∀ c ∈ d, isDigitC c = true) →
      get_project_id (p ++ (str "Documentazione/" ++ d)) = d) ∧
    (∀ url : Str, searchId url = none →
      get_project_id url = str "UnknownProject") := by
  refine ⟨?_, ?_, ?_⟩
  · intro p d hnm hd hdd
    unfold get_project_id
    rw [searchId_skip p _ hnm]
    obtain ⟨c, d2, rfl⟩ := List.exists_cons_of_ne_nil hd
    rw [show str "Info/" ++ (c :: d2) =
        'I' :: (str "nfo/" ++ (c :: d2)) from rfl]
    rw [searchId_cons_of_match (d := c :: d2) ?_]
    rw [show 'I' :: (str "nfo/" ++ (c :: d2)) =
        str "Info/" ++ (c :: d2) from rfl]
    exact matchIdAt_info (c :: d2) hd hdd
  · intro p d hnm hd hdd
    unfold get_project_id
    rw [searchId_skip p _ hnm]
    obtain ⟨c, d2, rfl⟩ := List.exists_cons_of_ne_nil hd
    rw [show str "Documentazione/" ++ (c :: d2) =
        'D' :: (str "ocumentazione/" ++ (c :: d2)) from rfl]
    rw [searchId_cons_of_match (d := c :: d2) ?_]
    rw [show 'D' :: (str "ocumentazione/" ++ (c :: d2)) =
        str "Documentazione/" ++ (c :: d2) from rfl]
    exact matchIdAt_doc (c :: d2) hd hdd
  · intro url hs
    unfold get_project_id
    rw [hs]

/-- C8 witness: a real record URL yields its trailing numeric segment,
and a URL without the pattern yields the sentinel. -/
theorem get_project_id_spec_witness :
    get_project_id (str "https://va.mite.gov.it/it-IT/Oggetti/" ++
      (str "Info/" ++ str "1234")) = str "1234" ∧
    get_project_id (str "https://example.com/nothing") =
      str "UnknownProject" :=
  ⟨get_project_id_spec.1 (str "https://va.mite.gov.it/it-IT/Oggetti/")
      (str "1234") (by decide) (by decide) (by decide),
   get_project_id_spec.2.2 (str "https://example.com/nothing") (by decide)⟩

/-!
## C3 — no duplicate URLs in the link lists

Both link gatherers append a resolved URL only after a membership test,
so the accumulated list never holds the same URL twice.
-/

/-- The guarded append keeps the no-duplicates invariant. -/
lemma insertLink_nodup {acc : List Str} (l : Str) (h : acc.Nodup) :
    (insertLink acc l).Nodup := by
  unfold insertLink
  by_cases hm : l ∈ acc
  · rw [if_pos hm]
    exact h
  · rw [if_neg hm]
    simp [List.nodup_append, h, hm]

/-- Folding the guarded append over any link list keeps the invariant. -/
lemma foldl_insertLink_nodup (ls : List Str) :
    ∀ acc : List Str, acc.Nodup → (ls.foldl insertLink acc).Nodup := by
  induction ls with
  | nil => intro acc h; exact h
  | cons l ls ih =>
    intro acc h
    exact ih (insertLink acc l) (insertLink_nodup l h)

/-- Folding one page's links into a duplicate-free accumulator keeps it
duplicate-free. -/
lemma addPageLinks_nodup {acc : List Str} (soup : Soup) (pat : Str)
    (h : acc.Nodup) : (addPageLinks acc soup pat).Nodup :=
  foldl_insertLink_nodup _ acc h

/-- Every successful search walk started from a duplicate-free
accumulator returns a duplicate-free link list. -/
lemma csrAux_nodup (fetch : Str → Option Soup) (keyword search_type : Str) :
    ∀ (fuel page : Nat) (acc r tr : List Str), acc.Nodup →
      csrAux fetch keyword search_type fuel page acc = some (r, tr) →
      r.Nodup := by
  intro fuel
  induction fuel with
  | zero => intro page acc r tr _ h; exact absurd h (by simp [csrAux])
  | succ fuel ih =>
    intro page acc r tr hacc h
    rw [csrAux] at h
    cases hf : fetch (build_search_url keyword search_type page) with
    | none =>
      rw [hf] at h
      simp only [Option.some.injEq, Prod.mk.injEq] at h
      rw [← h.1]
      exact hacc
    | some soup =>
      rw [hf] at h
      simp only at h
      by_cases hp : find_total_pages soup ≤ page
      · rw [if_pos hp] at h
        simp only [Option.some.injEq, Prod.mk.injEq] at h
        rw [← h.1]
        exact addPageLinks_nodup soup _ hacc
      · rw [if_neg hp] at h
        cases hr : csrAux fetch keyword search_type fuel (page + 1)
            (addPageLinks acc soup (searchPattern search_type)) with
        | none => rw [hr] at h; exact absurd h (by simp)
        | some x =>
          rw [hr] at h
          simp only [Option.some.injEq, Prod.mk.injEq] at h
          have := ih (page + 1) _ x.1 x.2
            (addPageLinks_nodup soup _ hacc) (by rw [hr])
          rw [← h.1]
          exact this

/-- C3.  One call to `collect_search_results` never returns the same
resolved URL twice, and neither does `get_procedura_links` on one
detail page. -/
theorem link_lists_nodup :
    (∀ (fetch : Str → Option Soup) (keyword search_type : Str)
      (fuel : Nat) (r tr : List Str),
      collect_search_results fetch keyword search_type fuel =
        some (r, tr) → r.Nodup) ∧
    (∀ (fetch : Str → Option Soup) (detail_url : Str),
      (get_procedura_links fetch detail_url).Nodup) := by
  constructor
  · intro fetch keyword search_type fuel r tr h
    exact csrAux_nodup fetch keyword search_type fuel 1 [] r tr
      List.nodup_nil h
  · intro fetch detail_url
    unfold get_procedura_links
    cases fetch detail_url with
    | none => exact List.nodup_nil
    | some soup =>
      simp only
      generalize (soup.anchors.filter fun a => a.href.isSome) = as
      have : ∀ (acc : List Str), acc.Nodup →
          (as.foldl (fun acc a =>
            let href := a.href.getD []
            if isInfixB docPattern href then
              insertLink acc (urljoin baseURL href)
            else acc) acc).Nodup := by
        induction as with
        | nil => intro acc h; exact h
        | cons a as ih =>
          intro acc h
          simp only [List.foldl_cons]
          by_cases hm : isInfixB docPattern (a.href.getD []) = true
          · simp only [hm, if_true]
            exact ih _ (insertLink_nodup _ h)
          · simp only [Bool.not_eq_true] at hm
            simp only [hm]
            exact ih _ h
      exact this [] List.nodup_nil

/-- C3 witness: a concrete two-anchor page on which the same record link
appears twice still yields a duplicate-free list. -/
theorem link_lists_nodup_witness :
    ([str "https://va.mite.gov.it/it-IT/Oggetti/Info/9"] : List Str).Nodup :=
  link_lists_nodup.1
    (fun u =>
      if u = build_search_url (str "k") (str "o") 1 then
        some ⟨none,
          [⟨some (str "/it-IT/Oggetti/Info/9"), none⟩,
           ⟨some (str "/it-IT/Oggetti/Info/9"), none⟩], none⟩
      else none)
    (str "k") (str "o") 1
    [str "https://va.mite.gov.it/it-IT/Oggetti/Info/9"]
    [build_search_url (str "k") (str "o") 1]
    (by decide)

/-!
## C1 — failure of the page-2 fetch during the search walk

When page 1 succeeds, reports at least 2 total pages, and the fetch of
page 2 fails, the walk breaks out of the loop: it returns exactly the
links gathered from page 1 in page order, its fetch trace is exactly
page 1 then page 2 (no retry), and the result is an ordinary value
(`some …`), not a propagated exception.
-/

/-- C1.  A failed page-2 fetch after a successful page 1 terminates the
search walk with exactly the page-1 links, having requested exactly
pages 1 and 2. -/
theorem search_walk_page2_failure (fetch : Str → Option Soup)
    (keyword search_type : Str) (fuel : Nat) (s1 : Soup)
    (hfuel : 2 ≤ fuel)
    (h1 : fetch (build_search_url keyword search_type 1) = some s1)
    (ht : 2 ≤ find_total_pages s1)
    (h2 : fetch (build_search_url keyword search_type 2) = none) :
    collect_search_results fetch keyword search_type fuel =
      some (addPageLinks [] s1 (searchPattern search_type),
        [build_search_url keyword search_type 1,
         build_search_url keyword search_type 2]) := by
  obtain ⟨k, rfl⟩ : ∃ k, fuel = k + 2 := ⟨fuel - 2, by omega⟩
  unfold collect_search_results
  rw [show k + 2 = (k + 1) + 1 from rfl, csrAux]
  rw [h1]
  simp only
  rw [if_neg (by omega)]
  rw [csrAux]
  rw [show (1 : Nat) + 1 = 2 from rfl, h2]

/-- C1 witness: a concrete oracle whose page 1 holds two record links
(one twice) and reports 3 pages, and whose page 2 fetch fails. -/
theorem search_walk_page2_failure_witness :
    collect_search_results
      (fun u =>
        if u = build_search_url (str "dam") (str "o") 1 then
          some ⟨some ⟨some (str "Pagina 1 di 3")⟩,
            [⟨some (str "/it-IT/Oggetti/Info/11"), none⟩,
             ⟨some (str "/it-IT/Oggetti/Info/22"), none⟩,
             ⟨some (str "/it-IT/Oggetti/Info/11"), none⟩], none⟩
        else none)
      (str "dam") (str "o") 9 =
      some (addPageLinks []
        ⟨some ⟨some (str "Pagina 1 di 3")⟩,
          [⟨some (str "/it-IT/Oggetti/Info/11"), none⟩,
           ⟨some (str "/it-IT/Oggetti/Info/22"), none⟩,
           ⟨some (str "/it-IT/Oggetti/Info/11"), none⟩], none⟩
        (searchPattern (str "o")),
        [build_search_url (str "dam") (str "o") 1,
         build_search_url (str "dam") (str "o") 2]) :=
  search_walk_page2_failure _ (str "dam") (str "o") 9
    ⟨some ⟨some (str "Pagina 1 di 3")⟩,
      [⟨some (str "/it-IT/Oggetti/Info/11"), none⟩,
       ⟨some (str "/it-IT/Oggetti/Info/22"), none⟩,
       ⟨some (str "/it-IT/Oggetti/Info/11"), none⟩], none⟩
    (by decide) (by decide) (by decide) (by decide)

/-!
## C2 — the document level does not deduplicate

`get_document_links` appends one `(download URL, display name)` pair per
matching table row with no membership test (src/streamlit_app.py:182),
unlike the record- and procedure-level gatherers.  A pair that appears
on two pages of one procedure's table therefore appears twice in the
result.
-/

/-- A procedure URL used by the C2 fixture. -/
def c2url : Str := str "https://va.mite.gov.it/it-IT/Oggetti/Documentazione/77"

/-- A document row whose cell 1 is the display name and whose cell 8
holds the download anchor. -/
def c2row : Tr :=
  ⟨[emptyTd, ⟨str "relazione.pdf", []⟩, emptyTd, emptyTd, emptyTd,
    emptyTd, emptyTd, emptyTd,
    ⟨[], [⟨some (str "/File/Documento/900"),
           some (str "Scarica il documento")⟩]⟩]⟩

/-- The fixture's document table: a header row and the one document row. -/
def c2table : Table := ⟨[⟨[]⟩, c2row]⟩

/-- The C2 fetch oracle: two pages of the same procedure, each carrying
the same document row; page 1 reports 2 total pages. -/
def c2fetch (u : Str) : Option Soup :=
  if u = c2url then
    some ⟨some ⟨some (str "Pagina 1 di 2")⟩, [], some c2table⟩
  else if u = c2url ++ str "?pagina=2" then
    some ⟨some ⟨some (str "Pagina 2 di 2")⟩, [], some c2table⟩
  else none

/-- The document entry the fixture's row denotes. -/
def c2entry : Str × Str :=
  (str "https://va.mite.gov.it/File/Documento/900", str "relazione.pdf")

/-- C2 counterexample: the same `(download URL, display name)` pair
appearing on both pages of one procedure's table appears twice in the
result of `get_document_links` — the document level does not
deduplicate. -/
theorem document_links_duplicate_counterexample :
    get_document_links c2fetch c2url 2 =
      some ([c2entry, c2entry], [c2url, c2url ++ str "?pagina=2"]) ∧
    ¬ ([c2entry, c2entry] : List (Str × Str)).Nodup := by
  constructor
  · decide
  · decide

/-- C2 amended.  Over a two-page document table the result of
`get_document_links` is the plain concatenation of the two pages'
parsed rows, one entry per matching row occurrence, with no
deduplication. -/
theorem document_links_concat_pages (fetch : Str → Option Soup)
    (u : Str) (fuel : Nat) (s1 s2 : Soup) (t1 t2 : Table)
    (hq : ¬ '?' ∈ u) (hfuel : 2 ≤ fuel)
    (h1 : fetch u = some s1) (ht1 : s1.docTable = some t1)
    (hp1 : find_total_pages s1 = 2)
    (h2 : fetch (u ++ str "?pagina=2") = some s2)
    (ht2 : s2.docTable = some t2)
    (hp2 : find_total_pages s2 ≤ 2) :
    get_document_links fetch u fuel =
      some (tableEntries t1 ++ tableEntries t2,
        [u, u ++ str "?pagina=2"]) := by
  obtain ⟨k, rfl⟩ : ∃ k, fuel = k + 2 := ⟨fuel - 2, by omega⟩
  unfold get_document_links
  rw [show k + 2 = (k + 1) + 1 from rfl, gdlAux]
  rw [if_pos (show (1 : Nat) = 1 from rfl)]
  rw [h1]
  simp only
  rw [ht1]
  simp only
  rw [hp1, if_neg (by omega)]
  rw [gdlAux]
  simp only [show ¬ (1 + 1 = 1) by omega, if_false, if_neg hq]
  rw [show u ++ str "?" ++ str "pagina=" ++ natToStr (1 + 1) =
      u ++ str "?pagina=2" by
        rw [List.append_assoc, List.append_assoc,
          show str "?" ++ (str "pagina=" ++ natToStr (1 + 1)) =
            str "?pagina=2" by decide]]
  rw [h2]
  simp only
  rw [ht2]
  simp only
  rw [if_pos (by omega)]
  simp

/-- C2 amended witness: the fixture's two identical pages concatenate to
the duplicated entry list. -/
theorem document_links_concat_pages_witness :
    get_document_links c2fetch c2url 2 =
      some (tableEntries c2table ++ tableEntries c2table,
        [c2url, c2url ++ str "?pagina=2"]) :=
  document_links_concat_pages c2fetch c2url 2
    ⟨some ⟨some (str "Pagina 1 di 2")⟩, [], some c2table⟩
    ⟨some ⟨some (str "Pagina 2 di 2")⟩, [], some c2table⟩
    c2table c2table (by decide) (by decide) (by decide) rfl
    (by decide) (by decide) rfl (by decide)

/-!
## C6 — malformed rows are skipped without damage

A row with fewer than 9 cells contributes nothing, and every row after
it is still parsed.
-/

/-- A procedure URL used by the C6 fixture. -/
def c6url : Str := str "https://va.mite.gov.it/it-IT/Oggetti/Documentazione/88"

/-- A valid 9-cell document row with the given name and href. -/
def mkDocRow (name href : String) : Tr :=
  ⟨[emptyTd, ⟨str name, []⟩, emptyTd, emptyTd, emptyTd, emptyTd, emptyTd,
    emptyTd,
    ⟨[], [⟨some (str href), some (str "Scarica il documento")⟩]⟩]⟩

/-- The malformed 7-cell row of the C6 fixture. -/
def c6badRow : Tr :=
  ⟨[emptyTd, ⟨str "rotto.pdf", []⟩, emptyTd, emptyTd, emptyTd, emptyTd,
    emptyTd]⟩

/-- The C6 fixture table: header, two valid rows, one malformed 7-cell
row, one more valid row. -/
def c6table : Table :=
  ⟨[⟨[]⟩, mkDocRow "a.pdf" "/File/Documento/1",
    mkDocRow "b.pdf" "/File/Documento/2", c6badRow,
    mkDocRow "c.pdf" "/File/Documento/3"]⟩

/-- The C6 fetch oracle: one single document page with the fixture
table and no pagination. -/
def c6fetch (u : Str) : Option Soup :=
  if u = c6url then some ⟨none, [], some c6table⟩ else none

/-- C6.  A row with fewer than 9 cells is skipped without error and
without disturbing the rows after it, and the 3-valid-rows-plus-one-
7-cell-row table yields exactly its 3 valid entries. -/
theorem malformed_row_skipped :
    (∀ (bad : Tr) (hdr : Tr) (pre post : List Tr),
      bad.tds.length < 9 →
      tableEntries ⟨hdr :: (pre ++ bad :: post)⟩ =
        tableEntries ⟨hdr :: (pre ++ post)⟩) ∧
    get_document_links c6fetch c6url 1 =
      some ([(str "https://va.mite.gov.it/File/Documento/1", str "a.pdf"),
             (str "https://va.mite.gov.it/File/Documento/2", str "b.pdf"),
             (str "https://va.mite.gov.it/File/Documento/3", str "c.pdf")],
        [c6url]) := by
  constructor
  · intro bad hdr pre post hlen
    unfold tableEntries
    simp only [List.drop_one, List.tail_cons, List.map_append,
      List.map_cons, List.flatten_append, List.flatten_cons]
    rw [show rowEntries bad = [] by unfold rowEntries; rw [if_pos hlen]]
    simp
  · decide

/-- C6 witness: dropping the fixture's malformed row from its table
leaves the parsed entries unchanged. -/
theorem malformed_row_skipped_witness :
    tableEntries ⟨⟨[]⟩ :: ([mkDocRow "a.pdf" "/File/Documento/1",
        mkDocRow "b.pdf" "/File/Documento/2"] ++ c6badRow ::
        [mkDocRow "c.pdf" "/File/Documento/3"])⟩ =
      tableEntries ⟨⟨[]⟩ :: ([mkDocRow "a.pdf" "/File/Documento/1",
        mkDocRow "b.pdf" "/File/Documento/2"] ++
        [mkDocRow "c.pdf" "/File/Documento/3"])⟩ :=
  malformed_row_skipped.1 c6badRow ⟨[]⟩
    [mkDocRow "a.pdf" "/File/Documento/1",
     mkDocRow "b.pdf" "/File/Documento/2"]
    [mkDocRow "c.pdf" "/File/Documento/3"] (by decide)

/-!
## C7 — the column contract of the document-table parser

For a row with at least 9 cells the display name comes from cell index 1
and the download URL from the anchor of cell index 8 carrying the action
title `Scarica il documento`; a row whose cell 8 has no such anchor is
skipped.
-/

/-- C7.  On a single-page procedure whose table holds the header and one
row with ≥ 9 cells, `get_document_links` returns the entry built from
cell 1's text and cell 8's action anchor, and returns nothing when that
anchor is absent. -/
theorem document_row_column_contract (fetch : Str → Option Soup)
    (u : Str) (fuel : Nat) (s : Soup) (hdr row : Tr)
    (hfuel : 1 ≤ fuel) (hf : fetch u = some s)
    (hpag : s.pagination = none)
    (htab : s.docTable = some ⟨[hdr, row]⟩)
    (hlen : 9 ≤ row.tds.length) :
    (∀ a : Anchor, findDownloadA (row.tds.getD 8 emptyTd) = some a →
      get_document_links fetch u fuel =
        some ([(urljoin baseURL (a.href.getD []),
          (row.tds.getD 1 emptyTd).text)], [u])) ∧
    (findDownloadA (row.tds.getD 8 emptyTd) = none →
      get_document_links fetch u fuel = some ([], [u])) := by
  obtain ⟨k, rfl⟩ : ∃ k, fuel = k + 1 := ⟨fuel - 1, by omega⟩
  have hone : find_total_pages s = 1 := by
    unfold find_total_pages
    rw [hpag]
  have hbase : ∀ e : List (Str × Str),
      tableEntries ⟨[hdr, row]⟩ = e →
      get_document_links fetch u (k + 1) = some (e, [u]) := by
    intro e he
    unfold get_document_links
    rw [gdlAux, if_pos (show (1 : Nat) = 1 from rfl), hf]
    simp only
    rw [htab]
    simp only
    rw [hone, if_pos (by omega), he]
    simp
  have htab2 : tableEntries ⟨[hdr, row]⟩ = rowEntries row := by
    simp [tableEntries]
  constructor
  · intro a ha
    refine hbase _ (htab2.trans ?_)
    simp only [rowEntries]
    rw [if_neg (by omega), ha]
  · intro ha
    refine hbase _ (htab2.trans ?_)
    simp only [rowEntries]
    rw [if_neg (by omega), ha]

/-- C7 witness: both branches of the column contract evaluated on the
one-row pages of two concrete oracles. -/
theorem document_row_column_contract_witness :
    get_document_links
      (fun u => if u = c2url then
        some ⟨none, [], some ⟨[⟨[]⟩, mkDocRow "x.pdf" "/File/Documento/7"]⟩⟩
      else none) c2url 1 =
      some ([(str "https://va.mite.gov.it/File/Documento/7", str "x.pdf")],
        [c2url]) ∧
    get_document_links
      (fun u => if u = c2url then
        some ⟨none, [], some ⟨[⟨[]⟩, ⟨List.replicate 9 emptyTd⟩]⟩⟩
      else none) c2url 1 = some ([], [c2url]) :=
  ⟨(document_row_column_contract _ c2url 1
      ⟨none, [], some ⟨[⟨[]⟩, mkDocRow "x.pdf" "/File/Documento/7"]⟩⟩
      ⟨[]⟩ (mkDocRow "x.pdf" "/File/Documento/7") (by decide) (by decide)
      rfl rfl (by decide)).1
      ⟨some (str "/File/Documento/7"), some (str "Scarica il documento")⟩
      (by decide),
   (document_row_column_contract _ c2url 1
      ⟨none, [], some ⟨[⟨[]⟩, ⟨List.replicate 9 emptyTd⟩]⟩⟩
      ⟨[]⟩ ⟨List.replicate 9 emptyTd⟩ (by decide) (by decide)
      rfl rfl (by decide)).2 (by decide)⟩

/-!
## C9 — URL construction of the document sub-walk

Every URL the document walk hands to the fetch oracle is recorded in its
trace, so the page-number merging rule is a statement about that trace:
position 0 is the bare procedure URL, and position `i ≥ 1` is the
procedure URL with `pagina=i+1` attached by `&` when the URL already has
a query string and by `?` otherwise.
-/

/-- Each URL in the document walk's fetch trace, starting from an
arbitrary page number, follows the page-parameter merging rule. -/
lemma gdlAux_trace (fetch : Str → Option Soup) (u : Str) :
    ∀ (fuel page : Nat) (acc r : List (Str × Str)) (tr : List Str),
      gdlAux fetch u fuel page acc = some (r, tr) →
      ∀ i, i < tr.length →
        tr.getD i [] =
          if page + i = 1 then u
          else u ++ (if '?' ∈ u then str "&" else str "?") ++
            str "pagina=" ++ natToStr (page + i) := by
  intro fuel
  induction fuel with
  | zero =>
    intro page acc r tr h
    exact absurd h (by simp [gdlAux])
  | succ f ih =>
    intro page acc r tr h
    rw [gdlAux] at h
    cases hf : fetch (if page = 1 then u
        else u ++ (if '?' ∈ u then str "&" else str "?") ++
          str "pagina=" ++ natToStr page) with
    | none =>
      rw [hf] at h
      simp only [Option.some.injEq, Prod.mk.injEq] at h
      rw [← h.2]
      intro i hi
      simp only [List.length_singleton] at hi
      interval_cases i
      simp only [List.getD_cons_zero, Nat.add_zero]
    | some soup =>
      rw [hf] at h
      simp only at h
      cases htab : soup.docTable with
      | none =>
        rw [htab] at h
        simp only [Option.some.injEq, Prod.mk.injEq] at h
        rw [← h.2]
        intro i hi
        simp only [List.length_singleton] at hi
        interval_cases i
        simp only [List.getD_cons_zero, Nat.add_zero]
      | some table =>
        rw [htab] at h
        simp only at h
        by_cases hp : find_total_pages soup ≤ page
        · rw [if_pos hp] at h
          simp only [Option.some.injEq, Prod.mk.injEq] at h
          rw [← h.2]
          intro i hi
          simp only [List.length_singleton] at hi
          interval_cases i
          simp only [List.getD_cons_zero, Nat.add_zero]
        · rw [if_neg hp] at h
          cases hr : gdlAux fetch u f (page + 1) (acc ++ tableEntries table)
            with
          | none => rw [hr] at h; exact absurd h (by simp)
          | some x =>
            rw [hr] at h
            simp only [Option.some.injEq, Prod.mk.injEq] at h
            rw [← h.2]
            intro i hi
            cases i with
            | zero =>
              simp only [List.getD_cons_zero, Nat.add_zero]
            | succ j =>
              simp only [List.length_cons] at hi
              have hj := ih (page + 1) (acc ++ tableEntries table) x.1 x.2
                (by rw [hr]) j (by omega)
              rw [List.getD_cons_succ, hj,
                show page + 1 + j = page + (j + 1) by omega]

/-- C9.  Every URL the document walk fetches obeys the claimed rule:
the procedure URL itself for page 1, and for page `n ≥ 2` the procedure
URL with `pagina=n` appended by `&` when the URL already contains `?`
and by `?` otherwise. -/
theorem document_walk_fetch_urls (fetch : Str → Option Soup) (u : Str)
    (fuel : Nat) (r : List (Str × Str)) (tr : List Str)
    (h : get_document_links fetch u fuel = some (r, tr)) :
    ∀ i, i < tr.length →
      tr.getD i [] =
        if i = 0 then u
        else u ++ (if '?' ∈ u then str "&" else str "?") ++
          str "pagina=" ++ natToStr (i + 1) := by
  intro i hi
  have := gdlAux_trace fetch u fuel 1 [] r tr h i hi
  by_cases h0 : i = 0
  · subst h0
    simpa using this
  · rw [if_neg (by omega : ¬ 1 + i = 1)] at this
    rw [if_neg h0, this, show 1 + i = i + 1 by omega]

/-- C9 witness: the trace of a concrete two-page document walk whose
procedure URL already carries a query string uses the `&pagina=2`
form at position 1. -/
theorem document_walk_fetch_urls_witness :
    ([str "https://va.mite.gov.it/it-IT/Oggetti/Documentazione/5?x=1",
      str "https://va.mite.gov.it/it-IT/Oggetti/Documentazione/5?x=1" ++
        str "&pagina=2"] : List Str).getD 1 [] =
      if (1 : Nat) = 0 then
        str "https://va.mite.gov.it/it-IT/Oggetti/Documentazione/5?x=1"
      else
        str "https://va.mite.gov.it/it-IT/Oggetti/Documentazione/5?x=1" ++
          (if '?' ∈ str "https://va.mite.gov.it/it-IT/Oggetti/Documentazione/5?x=1"
            then str "&" else str "?") ++
          str "pagina=" ++ natToStr (1 + 1) :=
  document_walk_fetch_urls
    (fun v =>
      if v = str "https://va.mite.gov.it/it-IT/Oggetti/Documentazione/5?x=1"
      then some ⟨some ⟨some (str "Pagina 1 di 2")⟩, [], some c2table⟩
      else if v = str "https://va.mite.gov.it/it-IT/Oggetti/Documentazione/5?x=1"
          ++ str "&pagina=2"
      then some ⟨some ⟨some (str "Pagina 2 di 2")⟩, [], some c2table⟩
      else none)
    (str "https://va.mite.gov.it/it-IT/Oggetti/Documentazione/5?x=1") 2
    [c2entry, c2entry]
    [str "https://va.mite.gov.it/it-IT/Oggetti/Documentazione/5?x=1",
     str "https://va.mite.gov.it/it-IT/Oggetti/Documentazione/5?x=1" ++
       str "&pagina=2"]
    (by decide) 1 (by decide)

/-!
## C10 — termination of the two pagination loops

Under a fetch oracle whose successful pages all report the same total
`T`, each loop needs at most `max T 1` iterations: the page counter
strictly increases and the loop breaks as soon as it reaches the
reported total, a fetch fails, or (for the document walk) the table is
absent.  With fuel `max T 1` the embedded loops already reach a `break`
(`isSome`), more fuel changes nothing, and the fetch trace — one entry
per fetched page — has length at most `max T 1`.
-/

/-- With constant reported totals, fuel `fuel ≥ max (T + 1 - page) 1`
suffices for the search walk to reach a break. -/
lemma csrAux_isSome (fetch : Str → Option Soup)
    (keyword search_type : Str) (T : Nat)
    (hT : ∀ url s, fetch url = some s → find_total_pages s = T) :
    ∀ (fuel page : Nat) (acc : List Str), 1 ≤ fuel →
      T + 1 ≤ fuel + page →
      (csrAux fetch keyword search_type fuel page acc).isSome := by
  intro fuel
  induction fuel with
  | zero => intro page acc h1 _; omega
  | succ f ih =>
    intro page acc h1 h2
    rw [csrAux]
    cases hf : fetch (build_search_url keyword search_type page) with
    | none => simp
    | some soup =>
      simp only
      have htot := hT _ _ hf
      by_cases hp : find_total_pages soup ≤ page
      · rw [if_pos hp]
        simp
      · rw [if_neg hp]
        rw [htot] at hp
        have hrec := ih (page + 1)
          (addPageLinks acc soup (searchPattern search_type))
          (by omega) (by omega)
        cases hr : csrAux fetch keyword search_type f (page + 1)
            (addPageLinks acc soup (searchPattern search_type)) with
        | none => rw [hr] at hrec; exact absurd hrec (by simp)
        | some x =>
          obtain ⟨r, tr⟩ := x
          simp

/-- A successful search walk is unchanged by extra fuel. -/
lemma csrAux_mono (fetch : Str → Option Soup) (keyword search_type : Str) :
    ∀ (fuel fuel2 page : Nat) (acc : List Str)
      (x : List Str × List Str),
      csrAux fetch keyword search_type fuel page acc = some x →
      fuel ≤ fuel2 →
      csrAux fetch keyword search_type fuel2 page acc = some x := by
  intro fuel
  induction fuel with
  | zero => intro fuel2 page acc x h; exact absurd h (by simp [csrAux])
  | succ f ih =>
    intro fuel2 page acc x h hle
    obtain ⟨f2, rfl⟩ : ∃ f2, fuel2 = f2 + 1 := ⟨fuel2 - 1, by omega⟩
    cases hfe : fetch (build_search_url keyword search_type page) with
    | none =>
      rw [csrAux] at h ⊢
      rw [hfe] at h ⊢
      exact h
    | some soup =>
      rw [csrAux] at h ⊢
      rw [hfe] at h ⊢
      simp only at h ⊢
      by_cases hp : find_total_pages soup ≤ page
      · rw [if_pos hp] at h ⊢
        exact h
      · rw [if_neg hp] at h ⊢
        cases hr : csrAux fetch keyword search_type f (page + 1)
            (addPageLinks acc soup (searchPattern search_type)) with
        | none => rw [hr] at h; exact absurd h (by simp)
        | some y =>
          obtain ⟨r, tr⟩ := y
          rw [hr] at h
          rw [ih f2 (page + 1) _ (r, tr) hr (by omega)]
          exact h

/-- With constant reported totals, the search walk's fetch trace from
page `page` has at most `T + 1 - page` entries (at least one page is
always fetched). -/
lemma csrAux_trace_len (fetch : Str → Option Soup)
    (keyword search_type : Str) (T : Nat)
    (hT : ∀ url s, fetch url = some s → find_total_pages s = T) :
    ∀ (fuel page : Nat) (acc r tr : List Str),
      csrAux fetch keyword search_type fuel page acc = some (r, tr) →
      tr.length ≤ T + 1 - page ∨ tr.length = 1 := by
  intro fuel
  induction fuel with
  | zero => intro page acc r tr h; exact absurd h (by simp [csrAux])
  | succ f ih =>
    intro page acc r tr h
    rw [csrAux] at h
    cases hf : fetch (build_search_url keyword search_type page) with
    | none =>
      rw [hf] at h
      simp only [Option.some.injEq, Prod.mk.injEq] at h
      right
      rw [← h.2]
      rfl
    | some soup =>
      rw [hf] at h
      simp only at h
      have htot := hT _ _ hf
      by_cases hp : find_total_pages soup ≤ page
      · rw [if_pos hp] at h
        simp only [Option.some.injEq, Prod.mk.injEq] at h
        right
        rw [← h.2]
        rfl
      · rw [if_neg hp] at h
        rw [htot] at hp
        cases hr : csrAux fetch keyword search_type f (page + 1)
            (addPageLinks acc soup (searchPattern search_type)) with
        | none => rw [hr] at h; exact absurd h (by simp)
        | some x =>
          rw [hr] at h
          simp only [Option.some.injEq, Prod.mk.injEq] at h
          have hx := ih (page + 1) _ x.1 x.2 (by rw [hr])
          left
          rw [← h.2]
          simp only [List.length_cons]
          omega

/-- With constant reported totals, fuel `≥ max (T + 1 - page) 1`
suffices for the document walk to reach a break. -/
lemma gdlAux_isSome (fetch : Str → Option Soup) (u : Str) (T : Nat)
    (hT : ∀ url s, fetch url = some s → find_total_pages s = T) :
    ∀ (fuel page : Nat) (acc : List (Str × Str)), 1 ≤ fuel →
      T + 1 ≤ fuel + page → (gdlAux fetch u fuel page acc).isSome := by
  intro fuel
  induction fuel with
  | zero => intro page acc h1 _; omega
  | succ f ih =>
    intro page acc h1 h2
    rw [gdlAux]
    cases hf : fetch (if page = 1 then u
        else u ++ (if '?' ∈ u then str "&" else str "?") ++
          str "pagina=" ++ natToStr page) with
    | none => simp
    | some soup =>
      simp only
      cases htab : soup.docTable with
      | none => simp
      | some table =>
        simp only
        have htot := hT _ _ hf
        by_cases hp : find_total_pages soup ≤ page
        · rw [if_pos hp]
          simp
        · rw [if_neg hp]
          rw [htot] at hp
          have hrec := ih (page + 1) (acc ++ tableEntries table)
            (by omega) (by omega)
          cases hr : gdlAux fetch u f (page + 1) (acc ++ tableEntries table)
            with
          | none => rw [hr] at hrec; exact absurd hrec (by simp)
          | some x =>
            obtain ⟨r, tr⟩ := x
            simp

/-- A successful document walk is unchanged by extra fuel. -/
lemma gdlAux_mono (fetch : Str → Option Soup) (u : Str) :
    ∀ (fuel fuel2 page : Nat) (acc : List (Str × Str))
      (x : List (Str × Str) × List Str),
      gdlAux fetch u fuel page acc = some x → fuel ≤ fuel2 →
      gdlAux fetch u fuel2 page acc = some x := by
  intro fuel
  induction fuel with
  | zero => intro fuel2 page acc x h; exact absurd h (by simp [gdlAux])
  | succ f ih =>
    intro fuel2 page acc x h hle
    obtain ⟨f2, rfl⟩ : ∃ f2, fuel2 = f2 + 1 := ⟨fuel2 - 1, by omega⟩
    cases hfe : fetch (if page = 1 then u
        else u ++ (if '?' ∈ u then str "&" else str "?") ++
          str "pagina=" ++ natToStr page) with
    | none =>
      rw [gdlAux] at h ⊢
      rw [hfe] at h ⊢
      exact h
    | some soup =>
      rw [gdlAux] at h ⊢
      rw [hfe] at h ⊢
      simp only at h ⊢
      cases htab : soup.docTable with
      | none =>
        rw [htab] at h
        exact h
      | some table =>
        rw [htab] at h
        simp only at h ⊢
        by_cases hp : find_total_pages soup ≤ page
        · rw [if_pos hp] at h ⊢
          exact h
        · rw [if_neg hp] at h ⊢
          cases hr : gdlAux fetch u f (page + 1) (acc ++ tableEntries table)
            with
          | none => rw [hr] at h; exact absurd h (by simp)
          | some y =>
            obtain ⟨r, tr⟩ := y
            rw [hr] at h
            rw [ih f2 (page + 1) _ (r, tr) hr (by omega)]
            exact h

/-- With constant reported totals, the document walk's fetch trace from
page `page` has at most `T + 1 - page` entries (at least one page is
always fetched). -/
lemma gdlAux_trace_len (fetch : Str → Option Soup) (u : Str) (T : Nat)
    (hT : ∀ url s, fetch url = some s → find_total_pages s = T) :
    ∀ (fuel page : Nat) (acc r : List (Str × Str)) (tr : List Str),
      gdlAux fetch u fuel page acc = some (r, tr) →
      tr.length ≤ T + 1 - page ∨ tr.length = 1 := by
  intro fuel
  induction fuel with
  | zero => intro page acc r tr h; exact absurd h (by simp [gdlAux])
  | succ f ih =>
    intro page acc r tr h
    rw [gdlAux] at h
    cases hf : fetch (if page = 1 then u
        else u ++ (if '?' ∈ u then str "&" else str "?") ++
          str "pagina=" ++ natToStr page) with
    | none =>
      rw [hf] at h
      simp only [Option.some.injEq, Prod.mk.injEq] at h
      right
      rw [← h.2]
      rfl
    | some soup =>
      rw [hf] at h
      simp only at h
      cases htab : soup.docTable with
      | none =>
        rw [htab] at h
        simp only [Option.some.injEq, Prod.mk.injEq] at h
        right
        rw [← h.2]
        rfl
      | some table =>
        rw [htab] at h
        simp only at h
        have htot := hT _ _ hf
        by_cases hp : find_total_pages soup ≤ page
        · rw [if_pos hp] at h
          simp only [Option.some.injEq, Prod.mk.injEq] at h
          right
          rw [← h.2]
          rfl
        · rw [if_neg hp] at h
          rw [htot] at hp
          cases hr : gdlAux fetch u f (page + 1) (acc ++ tableEntries table)
            with
          | none => rw [hr] at h; exact absurd h (by simp)
          | some x =>
            rw [hr] at h
            simp only [Option.some.injEq, Prod.mk.injEq] at h
            have hx := ih (page + 1) _ x.1 x.2 (by rw [hr])
            left
            rw [← h.2]
            simp only [List.length_cons]
            omega

/-- C10.  Under a fetch oracle whose successful pages all report the
same total `T`, both pagination loops terminate within `max T 1`
iterations: with fuel `max T 1` each reaches a break, additional fuel
does not change the result, and each walk fetches at most `max T 1`
pages. -/
theorem pagination_walks_terminate (fetch : Str → Option Soup) (T : Nat)
    (hT : ∀ url s, fetch url = some s → find_total_pages s = T)
    (keyword search_type u : Str) (fuel : Nat)
    (hfuel : max T 1 ≤ fuel) :
    ((collect_search_results fetch keyword search_type (max T 1)).isSome ∧
     collect_search_results fetch keyword search_type fuel =
       collect_search_results fetch keyword search_type (max T 1) ∧
     (∀ r tr : List Str,
       collect_search_results fetch keyword search_type fuel =
         some (r, tr) → tr.length ≤ max T 1)) ∧
    ((get_document_links fetch u (max T 1)).isSome ∧
     get_document_links fetch u fuel = get_document_links fetch u (max T 1) ∧
     (∀ (r : List (Str × Str)) (tr : List Str),
       get_document_links fetch u fuel = some (r, tr) →
         tr.length ≤ max T 1)) := by
  have hmax1 : 1 ≤ max T 1 := Nat.le_max_right T 1
  have hmaxT : T ≤ max T 1 := Nat.le_max_left T 1
  constructor
  · have hsome := csrAux_isSome fetch keyword search_type T hT (max T 1) 1 []
      hmax1 (by omega)
    obtain ⟨x, hx⟩ := Option.isSome_iff_exists.mp hsome
    have hstable : collect_search_results fetch keyword search_type fuel =
        collect_search_results fetch keyword search_type (max T 1) := by
      unfold collect_search_results
      rw [hx, csrAux_mono fetch keyword search_type (max T 1) fuel 1 [] x hx
        hfuel]
    refine ⟨hsome, hstable, ?_⟩
    intro r tr htr
    have := csrAux_trace_len fetch keyword search_type T hT fuel 1 [] r tr
      htr
    omega
  · have hsome := gdlAux_isSome fetch u T hT (max T 1) 1 [] hmax1 (by omega)
    obtain ⟨x, hx⟩ := Option.isSome_iff_exists.mp hsome
    have hstable : get_document_links fetch u fuel =
        get_document_links fetch u (max T 1) := by
      unfold get_document_links
      rw [hx, gdlAux_mono fetch u (max T 1) fuel 1 [] x hx hfuel]
    refine ⟨hsome, hstable, ?_⟩
    intro r tr htr
    have := gdlAux_trace_len fetch u T hT fuel 1 [] r tr htr
    omega

/-- C10 witness: an oracle whose every page reports 3 total pages makes
both walks terminate within `max 3 1` fetches. -/
theorem pagination_walks_terminate_witness :
    (collect_search_results
      (fun _ => some ⟨some ⟨some (str "Pagina 1 di 3")⟩, [], none⟩)
      (str "k") (str "o") (max 3 1)).isSome ∧
    (get_document_links
      (fun _ => some ⟨some ⟨some (str "Pagina 1 di 3")⟩, [], none⟩)
      (str "u") (max 3 1)).isSome :=
  ⟨(pagination_walks_terminate
      (fun _ => some ⟨some ⟨some (str "Pagina 1 di 3")⟩, [], none⟩) 3
      (fun url s h => by
        simp only [Option.some.injEq] at h
        rw [← h]
        decide)
      (str "k") (str "o") (str "u") 7 (by decide)).1.1,
   (pagination_walks_terminate
      (fun _ => some ⟨some ⟨some (str "Pagina 1 di 3")⟩, [], none⟩) 3
      (fun url s h => by
        simp only [Option.some.injEq] at h
        rw [← h]
        decide)
      (str "k") (str "o") (str "u") 7 (by decide)).2.1⟩

end Via2
